import Mathlib

/-!
# Verification of `hidden::dispenser` (hidden-rs)

A shallow embedding of `src/dispenser.rs`: a `Dispenser` owning a mutable
permutation `seq : Vec<usize>` together with a thread-local random source,
and the immutable snapshot view `Hand` it mints against caller decks.

Modelling conventions:
* `usize` values become `Nat`; no arithmetic in the source can overflow
  (indices are bounded by vector lengths), so no modular reduction is needed.
* `ThreadRng` is modelled as an entropy stream `List Nat`; drawing a value in
  `0..=i` (rand's `gen_range(0..=i)`) consumes the head reduced mod `i + 1`,
  with an exhausted stream yielding `0`.  Every claim below is quantified over
  all streams, so nothing depends on the distribution of the source.
* `slice::shuffle` of the `rand` crate is the Fisher-Yates loop
  `for i in (1..len).rev() { swap(i, gen_range(0..=i)) }`, embedded as
  `shuffleSteps`.
* Borrowed slices (`&[T]`, `Box<[usize]>`) become `List` values; `Option<&T>`
  becomes `Option α`.
* The mutation of `&mut self` becomes explicit state passing: each mutating
  Rust method returns its result paired with the successor `Dispenser`.
-/

namespace Hidden

/-- Entropy stream standing in for `rand::ThreadRng`. -/
abbrev Rng := List Nat

/-- Draw a value uniformly shaped into `[0, bound)` from the stream, as
`rng.gen_range(0..=i)` does with `bound = i + 1`; returns the value and the
remaining stream. An exhausted stream yields `0`. -/
def genRange (r : Rng) (bound : Nat) : Nat × Rng :=
  match r with
  | [] => (0, [])
  | x :: xs => (x % bound, xs)

/-- `Vec::swap i j`, total: out-of-range indices leave the list unchanged
(in the shuffle loop both indices are always in range). -/
def swapIdx (l : List α) (i j : Nat) : List α :=
  match l[i]?, l[j]? with
  | some a, some b => (l.set i b).set j a
  | _, _ => l

/-- The body of rand's `SliceRandom::shuffle`: iterate `i` from `len - 1`
down to `1`, swapping position `i` with a drawn position `j ∈ 0..=i`.
The first argument is the current value of `i`. -/
def shuffleSteps : Nat → List α → Rng → List α × Rng
  | 0, l, r => (l, r)
  | i + 1, l, r =>
    let p := genRange r (i + 2)
    shuffleSteps i (swapIdx l (i + 1) p.1) p.2

/-- `slice.shuffle(&mut rng)` on a list, returning the shuffled list and the
advanced random source. -/
def shuffleList (l : List α) (r : Rng) : List α × Rng :=
  shuffleSteps (l.length - 1) l r

/-- `struct Dispenser { seq: Vec<usize>, rng: ThreadRng }`. -/
structure Dispenser where
  seq : List Nat
  rng : Rng
deriving Repr, DecidableEq

namespace Dispenser

/-- Private method `Dispenser::shuffle`: `self.seq.shuffle(&mut self.rng)`. -/
def shuffle (d : Dispenser) : Dispenser :=
  let p := shuffleList d.seq d.rng
  ⟨p.1, p.2⟩

/-- `Dispenser::new(len)`: seed `seq` with `(0..len).collect()` and shuffle
once.  The initial entropy of `thread_rng()` is the explicit argument `r`. -/
def new (len : Nat) (r : Rng) : Dispenser :=
  Dispenser.shuffle ⟨List.range len, r⟩

/-- `Dispenser::len`: `self.seq.len()`, the effective `len` given to `new`. -/
def len (d : Dispenser) : Nat :=
  d.seq.length

end Dispenser

/-- `struct Hand<'h, T>(Box<[usize]>, &'h [T])`: a frozen slice of choices
paired with a borrowed slice of elements. -/
structure Hand (α : Type u) where
  choices : List Nat
  elements : List α
deriving Repr

namespace Hand

/-- `Hand::new(choices, elements)`; no length-equivalence check. -/
def new (choices : List Nat) (elements : List α) : Hand α :=
  ⟨choices, elements⟩

/-- `Hand::choose(idx)`: look `idx` up in the frozen choices, then look the
resulting choice up in the elements; `None` if either lookup misses. -/
def choose (h : Hand α) (idx : Nat) : Option α :=
  match h.choices[idx]? with
  | some u =>
    match h.elements[u]? with
    | some t => some t
    | none => none
  | none => none

/-- `Hand::len`: the amount of choices this hand has. -/
def len (h : Hand α) : Nat :=
  h.choices.length

end Hand

namespace Dispenser

/-- `Dispenser::make_hand_unchecked(deck)`: clone `seq` into a box, shuffle,
and wrap the pre-shuffle snapshot with the deck.  Returns the hand and the
mutated dispenser. -/
def make_hand_unchecked (d : Dispenser) (deck : List α) :
    Hand α × Dispenser :=
  let b := d.seq
  let d2 := d.shuffle
  (Hand.new b deck, d2)

/-- `Dispenser::make_hand(deck)`: reject when `deck.len() != self.len()`,
otherwise defer to `make_hand_unchecked`.  Returns the optional hand and the
resulting dispenser (unchanged on rejection, as `&mut self` is untouched). -/
def make_hand (d : Dispenser) (deck : List α) :
    Option (Hand α) × Dispenser :=
  if deck.length ≠ d.len then
    (none, d)
  else
    let p := d.make_hand_unchecked deck
    (some p.1, p.2)

end Dispenser

/-- The dispenser states reachable by the public API for a fixed size `n`:
the state right after `new n`, and every state after a further checked or
unchecked mint (against arbitrary decks of arbitrary element types; the
evolution of `seq` and `rng` does not depend on the deck's element type, so
quantifying over `List Nat` decks captures every mint). -/
inductive Reachable (n : Nat) : Dispenser → Prop
  | init (r : Rng) : Reachable n (Dispenser.new n r)
  | mint_checked (d : Dispenser) (deck : List Nat) :
      Reachable n d → Reachable n (d.make_hand deck).2
  | mint_unchecked (d : Dispenser) (deck : List Nat) :
      Reachable n d → Reachable n (d.make_hand_unchecked deck).2

/-- Minting a sequence of decks one after another with `make_hand_unchecked`,
collecting the issued hands: the shape of a client loop over one dispenser. -/
def runMints (d : Dispenser) : List (List α) → List (Hand α) × Dispenser
  | [] => ([], d)
  | deck :: rest =>
    let p := d.make_hand_unchecked deck
    let q := runMints p.2 rest
    (p.1 :: q.1, q.2)

/-! ## Permutation-preservation of the embedded Fisher-Yates shuffle -/

/-- Swapping two positions of a list leaves its multiset of elements
unchanged. -/
theorem swapIdx_perm (l : List α) (i j : Nat) : (swapIdx l i j).Perm l := by
  classical
  unfold swapIdx
  rcases hgi : l[i]? with _ | a
  · simp
  rcases hgj : l[j]? with _ | b
  · simp
  simp only
  have hi : i < l.length := (List.getElem?_eq_some.mp hgi).1
  have hj : j < l.length := (List.getElem?_eq_some.mp hgj).1
  have ha : l[i] = a := by
    simpa [List.getElem?_eq_getElem hi] using hgi
  have hb : l[j] = b := by
    simpa [List.getElem?_eq_getElem hj] using hgj
  rw [List.perm_iff_count]
  intro x
  have hjlen : j < (l.set i b).length := by simpa using hj
  rw [List.count_set a x (l.set i b) j hjlen]
  rw [List.count_set b x l i hi]
  have hsj : (l.set i b)[j] = b := by
    rw [List.getElem_set]
    split
    · rfl
    · exact hb
  rw [hsj, ha]
  have hmem_a : a ∈ l := ha ▸ List.getElem_mem hi
  have hmem_b : b ∈ l := hb ▸ List.getElem_mem hj
  by_cases hax : a = x
  · have hc : 0 < List.count x l := List.count_pos_iff.mpr (hax ▸ hmem_a)
    by_cases hbx : b = x
    · simp only [hax, hbx, beq_self_eq_true, if_pos]
      omega
    · simp only [hax, beq_self_eq_true, if_pos, beq_eq_false_iff_ne.mpr hbx,
        Bool.false_eq_true, if_false]
      omega
  · by_cases hbx : b = x
    · have hc : 0 < List.count x l := List.count_pos_iff.mpr (hbx ▸ hmem_b)
      simp only [hbx, beq_self_eq_true, if_pos, beq_eq_false_iff_ne.mpr hax,
        Bool.false_eq_true, if_false]
      omega
    · simp only [beq_eq_false_iff_ne.mpr hax, beq_eq_false_iff_ne.mpr hbx,
        Bool.false_eq_true, if_false]
      omega

/-- Each pass of the shuffle loop permutes the list. -/
theorem shuffleSteps_perm :
    ∀ (i : Nat) (l : List α) (r : Rng), (shuffleSteps i l r).1.Perm l := by
  intro i
  induction i with
  | zero => intro l r; exact List.Perm.refl l
  | succ i ih =>
    intro l r
    rw [shuffleSteps]
    exact (ih _ _).trans (swapIdx_perm l (i + 1) _)

/-- The embedded `slice.shuffle` permutes the list. -/
theorem shuffleList_perm (l : List α) (r : Rng) :
    (shuffleList l r).1.Perm l :=
  shuffleSteps_perm (l.length - 1) l r

/-- `Dispenser::shuffle` permutes `seq` and touches nothing else of it. -/
theorem Dispenser.shuffle_seq_perm (d : Dispenser) :
    d.shuffle.seq.Perm d.seq :=
  shuffleList_perm d.seq d.rng

/-- The core invariant: in every reachable state of a size-`n` dispenser,
`seq` is a permutation of `[0, n)`. -/
theorem Reachable.seq_perm_range {n : Nat} {d : Dispenser}
    (h : Reachable n d) : d.seq.Perm (List.range n) := by
  induction h with
  | init r => exact Dispenser.shuffle_seq_perm ⟨List.range n, r⟩
  | mint_checked d deck _ ih =>
    rw [Dispenser.make_hand]
    split
    · exact ih
    · exact (Dispenser.shuffle_seq_perm d).trans ih
  | mint_unchecked d deck _ ih =>
    exact (Dispenser.shuffle_seq_perm d).trans ih

/-- In every reachable state of a size-`n` dispenser, `len()` returns `n`. -/
theorem Reachable.len_eq {n : Nat} {d : Dispenser}
    (h : Reachable n d) : d.len = n := by
  simpa using h.seq_perm_range.length_eq

/-- `choose` is the composition of the two fallible lookups. -/
theorem Hand.choose_eq_bind (h : Hand α) (idx : Nat) :
    h.choose idx = h.choices[idx]?.bind fun u => h.elements[u]? := by
  unfold Hand.choose
  rcases hc : h.choices[idx]? with _ | u
  · rfl
  · rcases he : h.elements[u]? with _ | t <;> simp [he]

/-- When both bounds hold, `choose` returns the element at the stored
choice. -/
theorem Hand.choose_eq_get (h : Hand α) (idx : Nat)
    (hi : idx < h.choices.length)
    (hu : h.choices.get ⟨idx, hi⟩ < h.elements.length) :
    h.choose idx = some (h.elements.get ⟨h.choices.get ⟨idx, hi⟩, hu⟩) := by
  have hu2 : h.choices[idx] < h.elements.length := hu
  rw [Hand.choose_eq_bind, List.getElem?_eq_getElem hi, Option.some_bind,
    List.getElem?_eq_getElem hu2]
  rfl

/-! ## Claims -/

/-- C1: every mint, checked (under its length precondition) or unchecked,
hands out a snapshot equal to the dispenser's sequence immediately before
the call, and leaves the dispenser reshuffled exactly once, the reshuffle
happening after the snapshot (the post-state is one `shuffle` applied to the
pre-state, and the hand holds the pre-shuffle sequence). -/
theorem make_hand_snapshot_then_reshuffle (d : Dispenser) (deck : List α) :
    (d.make_hand_unchecked deck).1.choices = d.seq ∧
    (d.make_hand_unchecked deck).2 = d.shuffle ∧
    (deck.length = d.len →
      (d.make_hand deck).1 = some (Hand.new d.seq deck) ∧
      (d.make_hand deck).2 = d.shuffle) := by
  refine ⟨rfl, rfl, fun hlen => ?_⟩
  rw [Dispenser.make_hand]
  simp [hlen, Dispenser.make_hand_unchecked]

/-- C1 witness: a size-2 dispenser in a concrete state minting a matching
deck. -/
theorem make_hand_snapshot_then_reshuffle_witness :
    ([10, 20] : List Nat).length = (Dispenser.mk [0, 1] [1, 0]).len ∧
    ((Dispenser.mk [0, 1] [1, 0]).make_hand [10, 20]).1 =
      some (Hand.new [0, 1] [10, 20]) :=
  ⟨rfl,
    ((make_hand_snapshot_then_reshuffle
      (Dispenser.mk [0, 1] [1, 0]) [10, 20]).2.2 rfl).1⟩

/-- C4: the checked mint fails exactly when the deck length differs from the
dispenser's size, and a failing call returns the dispenser unchanged: no
reshuffle, no hand, identical subsequent behavior. -/
theorem make_hand_fail_iff_and_no_mutation (d : Dispenser) (deck : List α) :
    ((d.make_hand deck).1 = none ↔ deck.length ≠ d.len) ∧
    (deck.length ≠ d.len → d.make_hand deck = (none, d)) := by
  constructor
  · rw [Dispenser.make_hand]
    by_cases hne : deck.length ≠ d.len
    · simp [if_pos hne, hne]
    · simp [if_neg hne, hne]
  · intro hne
    rw [Dispenser.make_hand, if_pos hne]

/-- C4 witness: an empty deck offered to a size-1 dispenser is rejected with
the dispenser state returned intact. -/
theorem make_hand_fail_iff_and_no_mutation_witness :
    ([] : List Nat).length ≠ (Dispenser.new 1 []).len ∧
    (Dispenser.new 1 []).make_hand ([] : List Nat) = (none, Dispenser.new 1 []) :=
  ⟨by decide,
    (make_hand_fail_iff_and_no_mutation (Dispenser.new 1 []) ([] : List Nat)).2
      (by decide)⟩

/-- C5: whenever the length precondition holds, the checked mint returns
`some` of exactly the hand the unchecked mint would return and reaches
exactly the same dispenser post-state. -/
theorem make_hand_refines_unchecked (d : Dispenser) (deck : List α)
    (h : deck.length = d.len) :
    d.make_hand deck =
      (some (d.make_hand_unchecked deck).1, (d.make_hand_unchecked deck).2) := by
  rw [Dispenser.make_hand, if_neg (by simp [h])]

/-- C5 witness: a concrete size-1 dispenser with a matching singleton deck. -/
theorem make_hand_refines_unchecked_witness :
    ([5] : List Nat).length = (Dispenser.mk [0] []).len ∧
    (Dispenser.mk [0] []).make_hand [5] =
      (some ((Dispenser.mk [0] []).make_hand_unchecked [5]).1,
        ((Dispenser.mk [0] []).make_hand_unchecked [5]).2) :=
  ⟨rfl, make_hand_refines_unchecked (Dispenser.mk [0] []) [5] rfl⟩

/-- C7: a hand minted first is untouched by any sequence of later mints on
the same dispenser: at the end of the run it is still exactly the hand
issued at mint time, its choices are the mint-time sequence, its `len` is
that sequence's length, and every `choose` result matches a hand built
directly from the mint-time snapshot. -/
theorem minted_hand_independent_of_later_mints (d : Dispenser)
    (deck : List α) (decks : List (List α)) :
    (runMints d (deck :: decks)).1.head? =
      some (d.make_hand_unchecked deck).1 ∧
    (d.make_hand_unchecked deck).1.choices = d.seq ∧
    (d.make_hand_unchecked deck).1.len = d.seq.length ∧
    ∀ idx, (d.make_hand_unchecked deck).1.choose idx =
      (Hand.new d.seq deck).choose idx := by
  exact ⟨rfl, rfl, rfl, fun idx => rfl⟩

/-- C8: `choose` is deterministic: two calls with the same index over the
same frozen choices and the same deck yield the same result. -/
theorem choose_deterministic (h1 h2 : Hand α) (idx : Nat)
    (hc : h1.choices = h2.choices) (he : h1.elements = h2.elements) :
    h1.choose idx = h2.choose idx := by
  unfold Hand.choose
  rw [hc, he]

/-- C8 witness: two structurally equal hands agree on `choose 0`. -/
theorem choose_deterministic_witness :
    (Hand.new [0] [7]).choices = (Hand.new [0] [7]).choices ∧
    (Hand.new [0] [7]).elements = (Hand.new [0] [7]).elements ∧
    (Hand.new [0] [7]).choose 0 = (Hand.new [0] [7]).choose 0 :=
  ⟨rfl, rfl, choose_deterministic (Hand.new [0] [7]) (Hand.new [0] [7]) 0 rfl rfl⟩

/-- C9: a size-0 dispenser reports `len() = 0`, successfully mints against
the empty deck, and the resulting hand answers `none` to every index. -/
theorem size_zero_dispenser (α : Type u) (r : Rng) :
    (Dispenser.new 0 r).len = 0 ∧
    ∃ h, ((Dispenser.new 0 r).make_hand ([] : List α)).1 = some h ∧
      ∀ idx, h.choose idx = none := by
  have hseq : (Dispenser.new 0 r).seq = [] := by
    have := (Dispenser.new 0 r).1
    simp [Dispenser.new, Dispenser.shuffle, shuffleList, shuffleSteps]
  refine ⟨by simp [Dispenser.len, hseq], Hand.new [] [], ?_, fun idx => rfl⟩
  rw [Dispenser.make_hand, if_neg (by simp [Dispenser.len, hseq])]
  simp [Dispenser.make_hand_unchecked, hseq]

/-- C2: `choose idx` produces a value exactly when `idx` is within the
frozen choices and the stored choice is within the elements; the value is
then the element at the stored choice, and the failure of either stage is
reported as the same `none`. -/
theorem choose_two_stage_bounds (h : Hand α) (idx : Nat) :
    ((∃ x, h.choose idx = some x) ↔
      ∃ hi : idx < h.choices.length,
        h.choices.get ⟨idx, hi⟩ < h.elements.length) ∧
    (∀ (hi : idx < h.choices.length)
        (hu : h.choices.get ⟨idx, hi⟩ < h.elements.length),
      h.choose idx = some (h.elements.get ⟨h.choices.get ⟨idx, hi⟩, hu⟩)) ∧
    (h.choose idx = none ↔
      ¬ ∃ hi : idx < h.choices.length,
          h.choices.get ⟨idx, hi⟩ < h.elements.length) := by
  have hA : (∃ x, h.choose idx = some x) ↔
      ∃ hi : idx < h.choices.length,
        h.choices.get ⟨idx, hi⟩ < h.elements.length := by
    constructor
    · rintro ⟨x, hx⟩
      rw [Hand.choose_eq_bind] at hx
      rcases hc : h.choices[idx]? with _ | u
      · rw [hc] at hx; cases hx
      · rw [hc, Option.some_bind] at hx
        have hi : idx < h.choices.length := (List.getElem?_eq_some.mp hc).1
        have hcu : h.choices.get ⟨idx, hi⟩ = u := by
          simpa [List.getElem?_eq_getElem hi] using hc
        have hult : u < h.elements.length := (List.getElem?_eq_some.mp hx).1
        exact ⟨hi, hcu ▸ hult⟩
    · rintro ⟨hi, hu⟩
      exact ⟨_, Hand.choose_eq_get h idx hi hu⟩
  refine ⟨hA, Hand.choose_eq_get h idx, ?_⟩
  rw [← hA]
  constructor
  · intro hnone
    rintro ⟨x, hx⟩
    rw [hnone] at hx
    cases hx
  · intro hnex
    rcases ho : h.choose idx with _ | x
    · rfl
    · exact absurd ⟨x, ho⟩ hnex

/-- C2 witness: the hand with choices `[1]` over deck `[5, 6]` resolves
index 0 to the element 6. -/
theorem choose_two_stage_bounds_witness :
    (Hand.new [1] [5, 6]).choose 0 = some 6 := by
  have h := (choose_two_stage_bounds (Hand.new ([1] : List Nat) ([5, 6] : List Nat)) 0).2.1
  exact h (by decide) (by decide)

/-- C3: in every reachable state of a size-`n` dispenser, the internal
sequence is a permutation of `[0, n)`, and therefore so is the frozen choice
sequence of every hand it mints, checked or unchecked. -/
theorem seq_and_hands_perm_range {α : Type u} (n : Nat) (d : Dispenser)
    (h : Reachable n d) :
    d.seq.Perm (List.range n) ∧
    (∀ deck : List α,
      (d.make_hand_unchecked deck).1.choices.Perm (List.range n)) ∧
    (∀ (deck : List α) (hand : Hand α),
      (d.make_hand deck).1 = some hand → hand.choices.Perm (List.range n)) := by
  refine ⟨h.seq_perm_range, fun deck => h.seq_perm_range, ?_⟩
  intro deck hand hmint
  rw [Dispenser.make_hand] at hmint
  split at hmint
  · cases hmint
  · cases hmint
    exact h.seq_perm_range

/-- C3 witness: a freshly constructed size-2 dispenser with a concrete
entropy stream has `[0, 2)` as the multiset of its sequence, and the hand it
mints inherits that. -/
theorem seq_and_hands_perm_range_witness :
    Reachable 2 (Dispenser.new 2 [5, 3]) ∧
    (Dispenser.new 2 [5, 3]).seq.Perm (List.range 2) ∧
    ((Dispenser.new 2 [5, 3]).make_hand_unchecked
      ([7, 9] : List Nat)).1.choices.Perm (List.range 2) :=
  ⟨Reachable.init [5, 3],
    (seq_and_hands_perm_range (α := Nat) 2 _ (Reachable.init [5, 3])).1,
    (seq_and_hands_perm_range (α := Nat) 2 _ (Reachable.init [5, 3])).2.1 [7, 9]⟩

/-- C6: a hand minted in any reachable state of a size-`n` dispenser against
a deck of length at least `n` answers `some` at every index below `n`; in
particular hands from the checked path never hit the second-stage absence,
which requires a deck strictly shorter than `n`. -/
theorem choose_isSome_of_deck_long_enough {α : Type u} (n : Nat)
    (d : Dispenser) (hreach : Reachable n d) (deck : List α)
    (hlen : n ≤ deck.length) :
    (∀ idx, idx < n →
      ((d.make_hand_unchecked deck).1.choose idx).isSome) ∧
    (∀ hand, (d.make_hand deck).1 = some hand →
      ∀ idx, idx < n → (hand.choose idx).isSome) := by
  have hperm : d.seq.Perm (List.range n) := hreach.seq_perm_range
  have hlen2 : d.seq.length = n := by simpa using hperm.length_eq
  have key : ∀ idx, idx < n → ((Hand.new d.seq deck).choose idx).isSome := by
    intro idx hidx
    have hi : idx < d.seq.length := by omega
    have hmem : d.seq.get ⟨idx, hi⟩ ∈ List.range n :=
      hperm.mem_iff.mp (List.get_mem d.seq idx hi)
    have hult : d.seq.get ⟨idx, hi⟩ < deck.length := by
      have := List.mem_range.mp hmem
      omega
    rw [Hand.choose_eq_get (Hand.new d.seq deck) idx hi hult]
    rfl
  refine ⟨fun idx hidx => key idx hidx, ?_⟩
  intro hand hmint idx hidx
  rw [Dispenser.make_hand] at hmint
  split at hmint
  · cases hmint
  · cases hmint
    exact key idx hidx

/-- C6 witness: a freshly constructed size-1 dispenser minting a singleton
deck answers `some` at index 0. -/
theorem choose_isSome_of_deck_long_enough_witness :
    Reachable 1 (Dispenser.new 1 []) ∧ 1 ≤ ([7] : List Nat).length ∧
    0 < 1 ∧
    (((Dispenser.new 1 []).make_hand_unchecked ([7] : List Nat)).1.choose
      0).isSome :=
  ⟨Reachable.init [], by decide, by decide,
    (choose_isSome_of_deck_long_enough 1 (Dispenser.new 1 [])
      (Reachable.init []) ([7] : List Nat) (by decide)).1 0 (by decide)⟩

/-- C10: the documented scenario: frozen choices `[2,3,1,0,4]` over deck
`abcde` resolve index 1 through choice 3 to the letter d, and index 2
through choice 1 to the letter b. -/
theorem choose_documented_scenario :
    (Hand.new [2, 3, 1, 0, 4] ['a', 'b', 'c', 'd', 'e']).choose 1 =
      some 'd' ∧
    (Hand.new [2, 3, 1, 0, 4] ['a', 'b', 'c', 'd', 'e']).choose 2 =
      some 'b' :=
  ⟨rfl, rfl⟩

end Hidden
